import Mathlib

/-!
Verification of the TXSonicLabPro batch audio-analysis pipeline.

The definitions below are a shallow embedding of the TypeScript source:
`types.ts` (data model), the application component (`handleFileChange`,
`removeFile`, `processBatch`, `exportResults`) and the inference service
wrapper.  External effects (file encoding, the remote inference call) are
modelled by an oracle `String → Nat → AttemptOutcome` giving, per job id and
per attempt index, the outcome the environment produces for that attempt.
Waiting (`sleep`) is modelled by recording the requested durations in traces.
-/

namespace TXSonicLab

/-! ## Data model (src/types.ts) -/

inductive EmotionStatus where
  | IDLE
  | PROCESSING
  | COMPLETED
  | FAILED
deriving DecidableEq

structure AnalysisResult where
  emotionType : String
  emotionLevel : Int
  voiceIdentity : String
  reasoning : String
deriving DecidableEq

/-- `AudioFile` of src/types.ts.  The TypeScript optional fields become
`Option`; the unforgeable `File` handle is not itself part of the model (the
encode step is part of the per-attempt oracle). -/
structure AudioFile where
  id : String
  name : String
  size : String
  status : EmotionStatus
  emotionType : Option String := none
  emotionLevel : Option Int := none
  voiceIdentity : Option String := none
  reasoning : Option String := none
  error : Option String := none
deriving DecidableEq

/-! ## String containment (JS `String.prototype.includes`) -/

/-- `headMatches pat s`: `pat` is an initial segment of `s`. -/
def headMatches : List Char → List Char → Bool
  | [], _ => true
  | _ :: _, [] => false
  | a :: as, b :: bs => a == b && headMatches as bs

/-- `charsIncl pat s`: `pat` occurs contiguously somewhere in `s`. -/
def charsIncl (pat : List Char) : List Char → Bool
  | [] => headMatches pat []
  | b :: bs => headMatches pat (b :: bs) || charsIncl pat bs

/-- JS `s.includes(pat)`: `pat` occurs as a contiguous substring of `s`. -/
def strIncludes (s pat : String) : Bool := charsIncl pat.toList s.toList

/-! ## Failure classification (the catch block of `processBatch`) -/

/-- `error.message?.includes("429") || error.message?.includes("RESOURCE_EXHAUSTED")`. -/
def isRateLimitMsg (msg : String) : Bool :=
  strIncludes msg "429" || strIncludes msg "RESOURCE_EXHAUSTED"

/-- The user-visible error label the source stores on a permanently failed
job: `error.message?.includes("429") ? "频率超限" : "分析失败"`. -/
def failLabel (msg : String) : String :=
  if strIncludes msg "429" then "频率超限" else "分析失败"

/-! ## Per-attempt outcomes -/

/-- What one encode-and-infer attempt does: the encode step
(`fileToBase64`) throws, the inference call (`analyzeAudioEmotion`,
including response parsing) throws, or the attempt succeeds with a parsed
result.  Both failure kinds carry the thrown error's message, since the
source's single catch block sees only `error.message`. -/
inductive AttemptOutcome where
  | encodeErr (msg : String)
  | inferErr (msg : String)
  | ok (r : AnalysisResult)
deriving DecidableEq

def AttemptOutcome.errMsg : AttemptOutcome → Option String
  | .encodeErr m => some m
  | .inferErr m => some m
  | .ok _ => none

def AttemptOutcome.isOk : AttemptOutcome → Bool
  | .ok _ => true
  | .encodeErr _ => false
  | .inferErr _ => false

/-- Does this attempt fail with a message the catch block classifies as a
rate-limit (retryable) failure? -/
def AttemptOutcome.rateLimited : AttemptOutcome → Bool
  | .ok _ => false
  | .encodeErr m => isRateLimitMsg m
  | .inferErr m => isRateLimitMsg m

/-! ## The per-job retry loop -/

inductive JobResult where
  | completed (r : AnalysisResult)
  | failed (errLabel : String)
deriving DecidableEq

def JobResult.isFailed : JobResult → Bool
  | .completed _ => false
  | .failed _ => true

/-- Observable record of one job's retry loop: the final result, how many
encode-and-infer attempts ran, how many of those reached the inference call,
and the backoff waits (in ms) in order — `waits[j]` is the sleep between
attempt `j` and attempt `j+1` (0-based). -/
structure JobTrace where
  result : JobResult
  attempts : Nat
  inferCalls : Nat
  waits : List Nat
deriving DecidableEq

/-- The source's `while (retryCount <= maxRetries && !success)` loop.
`k` is the current value of `retryCount` (also the 0-based attempt index,
since `retryCount` increments exactly once per failed-and-retried attempt)
and `remaining = maxRetries - retryCount` is how many retries are still
allowed.  On a failure whose message matches the rate-limit classification
with retries remaining, the loop waits `(k+1) * 5000` ms (the source's
`waitTime = retryCount * 5000` after the increment) and tries again;
otherwise it stores a permanently Failed result labelled by `failLabel`. -/
def runJobLoop (oracle : Nat → AttemptOutcome) : Nat → Nat → JobTrace
  | 0, k =>
    match oracle k with
    | .ok r => { result := .completed r, attempts := 1, inferCalls := 1, waits := [] }
    | .encodeErr m => { result := .failed (failLabel m), attempts := 1, inferCalls := 0, waits := [] }
    | .inferErr m => { result := .failed (failLabel m), attempts := 1, inferCalls := 1, waits := [] }
  | r' + 1, k =>
    match oracle k with
    | .ok r => { result := .completed r, attempts := 1, inferCalls := 1, waits := [] }
    | .encodeErr m =>
      if isRateLimitMsg m then
        let t := runJobLoop oracle r' (k + 1)
        { result := t.result, attempts := t.attempts + 1, inferCalls := t.inferCalls
          waits := (k + 1) * 5000 :: t.waits }
      else { result := .failed (failLabel m), attempts := 1, inferCalls := 0, waits := [] }
    | .inferErr m =>
      if isRateLimitMsg m then
        let t := runJobLoop oracle r' (k + 1)
        { result := t.result, attempts := t.attempts + 1, inferCalls := t.inferCalls + 1
          waits := (k + 1) * 5000 :: t.waits }
      else { result := .failed (failLabel m), attempts := 1, inferCalls := 1, waits := [] }

/-- `const maxRetries = 2` in the source. -/
def maxRetries : Nat := 2

/-- One job's whole encode-and-infer step, attempts and retries included. -/
def runJob (oracle : Nat → AttemptOutcome) : JobTrace :=
  runJobLoop oracle maxRetries 0

/-! ## Queue mutations (the `setFiles` updates) -/

/-- `{ ...f, status: PROCESSING, error: undefined }`. -/
def toProcessing (f : AudioFile) : AudioFile :=
  { f with status := .PROCESSING, error := none }

/-- `{ ...f, status: COMPLETED, emotionType, emotionLevel, voiceIdentity, reasoning }`. -/
def toCompleted (r : AnalysisResult) (f : AudioFile) : AudioFile :=
  { f with
    status := .COMPLETED
    emotionType := some r.emotionType
    emotionLevel := some r.emotionLevel
    voiceIdentity := some r.voiceIdentity
    reasoning := some r.reasoning }

/-- `{ ...f, status: FAILED, error: <label> }`. -/
def toFailed (e : String) (f : AudioFile) : AudioFile :=
  { f with status := .FAILED, error := some e }

def setProcessing (theId : String) (fs : List AudioFile) : List AudioFile :=
  fs.map fun f => if f.id = theId then toProcessing f else f

def setCompleted (theId : String) (r : AnalysisResult) (fs : List AudioFile) : List AudioFile :=
  fs.map fun f => if f.id = theId then toCompleted r f else f

def setFailed (theId : String) (e : String) (fs : List AudioFile) : List AudioFile :=
  fs.map fun f => if f.id = theId then toFailed e f else f

/-- The body of the `for` loop of `processBatch` for one selected job:
mark it Processing (clearing the previous error), run the retry loop, and
store the terminal outcome.  Also returns the job's trace. -/
def processJob (o : Nat → AttemptOutcome) (theId : String) (fs : List AudioFile) :
    List AudioFile × JobTrace :=
  let fs1 := setProcessing theId fs
  let t := runJob o
  match t.result with
  | .completed r => (setCompleted theId r fs1, t)
  | .failed e => (setFailed theId e fs1, t)

/-! ## The run loop -/

/-- One observable step of a run: a whole job's retry loop ran (with its
trace), or the runner slept between two jobs. -/
inductive RunEvent where
  | jobRun (theId : String) (t : JobTrace)
  | interDelay (ms : Nat)
deriving DecidableEq

/-- The `for (let i = 0; i < pendingFiles.length; i++)` loop: process each
selected id in order; `if (i < pendingFiles.length - 1) await sleep(1500)`
inserts the inter-job delay after every job but the last. -/
def runPending (oracle : String → Nat → AttemptOutcome) :
    List AudioFile → List String → List AudioFile × List RunEvent
  | fs, [] => (fs, [])
  | fs, theId :: rest =>
    let p := processJob (oracle theId) theId fs
    if rest.isEmpty then (p.1, [.jobRun theId p.2])
    else
      let q := runPending oracle p.1 rest
      (q.1, .jobRun theId p.2 :: .interDelay 1500 :: q.2)

/-- `f.status === EmotionStatus.IDLE || f.status === EmotionStatus.FAILED`. -/
def isPendingStatus (f : AudioFile) : Bool :=
  f.status == .IDLE || f.status == .FAILED

/-- `files.filter(f => f.status === IDLE || f.status === FAILED)`. -/
def workingSet (fs : List AudioFile) : List AudioFile :=
  fs.filter isPendingStatus

def workingSetIds (fs : List AudioFile) : List String :=
  (workingSet fs).map AudioFile.id

structure AppState where
  files : List AudioFile
  isProcessing : Bool
deriving DecidableEq

structure RunOutput where
  state : AppState
  trace : List RunEvent
deriving DecidableEq

/-- `processBatch`: the reentrancy guard (`if (isProcessing) return`), then
the working-set selection, the sequential run, and finally
`setIsProcessing(false)`. -/
def processBatch (oracle : String → Nat → AttemptOutcome) (st : AppState) : RunOutput :=
  if st.isProcessing then { state := st, trace := [] }
  else
    let p := runPending oracle st.files (workingSetIds st.files)
    { state := { files := p.1, isProcessing := false }, trace := p.2 }

/-- `processBatch` when `late` jobs are appended to the queue after the
working set was selected at run-start: the id-keyed `setFiles` updates map
over the grown queue, but the selection is the one made from the run-start
queue. -/
def processBatchLateAppend (oracle : String → Nat → AttemptOutcome) (st : AppState)
    (late : List AudioFile) : RunOutput :=
  if st.isProcessing then { state := st, trace := [] }
  else
    let p := runPending oracle (st.files ++ late) (workingSetIds st.files)
    { state := { files := p.1, isProcessing := false }, trace := p.2 }

/-! ## Enqueue and removal (`handleFileChange`, `removeFile`) -/

/-- What `handleFileChange` reads off one selected file. -/
structure NewFileMeta where
  id : String
  name : String
  size : String
deriving DecidableEq

/-- The job object `handleFileChange` builds: fresh id, Idle status, no
result fields, no error. -/
def mkIdleJob (nf : NewFileMeta) : AudioFile :=
  { id := nf.id, name := nf.name, size := nf.size, status := .IDLE }

/-- `setFiles(prev => [...prev, ...newFiles])`. -/
def handleFileChange (selected : List NewFileMeta) (fs : List AudioFile) : List AudioFile :=
  fs ++ selected.map mkIdleJob

/-- `setFiles(prev => prev.filter(f => f.id !== id))`. -/
def removeFile (theId : String) (fs : List AudioFile) : List AudioFile :=
  fs.filter fun f => f.id != theId

/-! ## CSV export (`exportResults`) -/

/-- Wrap a string in double quotes, with no escaping (the source's raw
`"${...}"` interpolation). -/
def quoteRaw (s : String) : String := "\"" ++ s ++ "\""

/-- JS `s.replace(/"/g, '""')`: double every double-quote character. -/
def doubleQuotes (s : String) : String :=
  String.mk (s.toList.foldr (fun c acc => if c = '\"' then '\"' :: '\"' :: acc else c :: acc) [])

/-- `${f.emotionLevel || ''}`: absent (and the falsy 0) render as the empty
string, any other number as its decimal text. -/
def levelStr : Option Int → String
  | none => ""
  | some lv => if lv = 0 then "" else toString lv

/-- One CSV row of `exportResults`: only the `reasoning` interpolation runs
`replace(/"/g, '""')`; the other four fields are interpolated raw. -/
def exportRow (f : AudioFile) : String :=
  quoteRaw f.name ++ "," ++ quoteRaw (f.emotionType.getD "") ++ "," ++
    quoteRaw (levelStr f.emotionLevel) ++ "," ++ quoteRaw (f.voiceIdentity.getD "") ++ "," ++
    quoteRaw (doubleQuotes (f.reasoning.getD ""))

def csvHeader : String := "文件名,情绪,强度(1-10),角色标签,AI洞察\n"

/-- The text of the exported blob (BOM, header, rows joined by newlines). -/
def exportResults (fs : List AudioFile) : String :=
  "\uFEFF" ++ csvHeader ++ String.intercalate "\n" (fs.map exportRow)

/-- Following the spec's words only (for comparison with `exportRow`): each
of the five fields "quoted, with embedded quote characters doubled". -/
def csvEscapeSpec (s : String) : String := quoteRaw (doubleQuotes s)

/-- Following the spec's words only: the row each job should export, every
field escaped, empty strings for unset fields. -/
def exportRowSpec (f : AudioFile) : String :=
  csvEscapeSpec f.name ++ "," ++ csvEscapeSpec (f.emotionType.getD "") ++ "," ++
    csvEscapeSpec (levelStr f.emotionLevel) ++ "," ++ csvEscapeSpec (f.voiceIdentity.getD "") ++
    "," ++ csvEscapeSpec (f.reasoning.getD "")

/-! ## Derived per-job view of a whole run -/

/-- The net effect of the retry loop's terminal store on the job it targets:
Processing-with-cleared-error first, then the terminal update. -/
def jobFinal (o : Nat → AttemptOutcome) (f : AudioFile) : AudioFile :=
  match (runJob o).result with
  | .completed r => toCompleted r (toProcessing f)
  | .failed e => toFailed e (toProcessing f)

/-- How one queue entry evolves across a whole run processing `ids` in
order: each processed id rewrites the entries carrying it. -/
def batchTransform (oracle : String → Nat → AttemptOutcome) (ids : List String)
    (f : AudioFile) : AudioFile :=
  ids.foldl (fun g theId => if g.id = theId then jobFinal (oracle theId) g else g) f

/-- The per-job invariant of the spec's data model: the four result fields
are present iff the job is Completed, and the error field is present iff the
job is Failed. -/
def jobInv (f : AudioFile) : Bool :=
  (f.emotionType.isSome == (f.status == .COMPLETED)) &&
  (f.emotionLevel.isSome == (f.status == .COMPLETED)) &&
  (f.voiceIdentity.isSome == (f.status == .COMPLETED)) &&
  (f.reasoning.isSome == (f.status == .COMPLETED)) &&
  (f.error.isSome == (f.status == .FAILED))

/-- The property the spec asserts of every Completed job: the four result
fields are present and the stored intensity lies in 1..10. -/
def completedOk (f : AudioFile) : Prop :=
  f.status = .COMPLETED →
    f.emotionType.isSome = true ∧ f.emotionLevel.isSome = true ∧
    f.voiceIdentity.isSome = true ∧ f.reasoning.isSome = true ∧
    ∀ lv : Int, f.emotionLevel = some lv → 1 ≤ lv ∧ lv ≤ 10

/-! ## Concrete sample data used by the witness theorems -/

def oracleBoom : String → Nat → AttemptOutcome := fun _ _ => .inferErr "boom"

def oracleOk7 : String → Nat → AttemptOutcome :=
  fun _ _ => .ok
    { emotionType := "快乐"
      emotionLevel := 7
      voiceIdentity := "青年男声"
      reasoning := "语调平稳" }

def jobIdleA : AudioFile := { id := "a", name := "a.wav", size := "1 KB", status := .IDLE }

def jobDoneB : AudioFile :=
  { id := "b"
    name := "b.wav"
    size := "2 KB"
    status := .COMPLETED
    emotionType := some "快乐"
    emotionLevel := some 7
    voiceIdentity := some "青年男声"
    reasoning := some "语调平稳" }

def jobIdleC : AudioFile := { id := "c", name := "c.wav", size := "3 KB", status := .IDLE }

/-! ## Theorems -/

/-- General shape of the retry loop started at `retryCount = k` with `rem`
retries still allowed: at least one and at most `rem + 1` attempts run, one
backoff wait precedes every attempt after the first, every retried attempt
failed rate-limited, the wait after the `j`-th attempt from here is
`(k + j + 1) * 5000` ms, the loop fails exactly when its last attempt does,
and a failure ends the loop only because it was not rate-limited or the
retry budget is spent. -/
theorem runJobLoop_spec (oracle : Nat → AttemptOutcome) (rem : Nat) : ∀ k : Nat,
    1 ≤ (runJobLoop oracle rem k).attempts ∧
    (runJobLoop oracle rem k).attempts ≤ rem + 1 ∧
    (runJobLoop oracle rem k).waits.length + 1 = (runJobLoop oracle rem k).attempts ∧
    (∀ j, j + 1 < (runJobLoop oracle rem k).attempts → (oracle (k + j)).rateLimited = true) ∧
    (∀ j, j < (runJobLoop oracle rem k).waits.length →
      (runJobLoop oracle rem k).waits.getD j 0 = (k + j + 1) * 5000) ∧
    (runJobLoop oracle rem k).result.isFailed = !(oracle (k + (runJobLoop oracle rem k).attempts - 1)).isOk ∧
    ((runJobLoop oracle rem k).result.isFailed = true →
      (oracle (k + (runJobLoop oracle rem k).attempts - 1)).rateLimited = false ∨
        (runJobLoop oracle rem k).attempts = rem + 1) := by
  induction rem with
  | zero =>
    intro k
    cases h : oracle k with
    | ok r =>
      simp [runJobLoop, h, JobResult.isFailed, AttemptOutcome.isOk]
    | encodeErr m =>
      simp [runJobLoop, h, JobResult.isFailed, AttemptOutcome.isOk]
    | inferErr m =>
      simp [runJobLoop, h, JobResult.isFailed, AttemptOutcome.isOk]
  | succ r ih =>
    intro k
    cases h : oracle k with
    | ok r' =>
      simp [runJobLoop, h, JobResult.isFailed, AttemptOutcome.isOk]
    | encodeErr m =>
      by_cases hr : isRateLimitMsg m = true
      · obtain ⟨i1, i2, i3, i4, i5, i6, i7⟩ := ih (k + 1)
        simp only [runJobLoop, h, hr, if_true]
        refine ⟨by omega, by omega, by simpa using i3, ?_, ?_, ?_, ?_⟩
        · intro j hj
          cases j with
          | zero => simpa [AttemptOutcome.rateLimited, h] using hr
          | succ j' =>
            have := i4 j' (by simpa using hj)
            simpa [Nat.add_assoc, Nat.add_comm 1 j'] using this
        · intro j hj
          cases j with
          | zero => simp
          | succ j' =>
            have hlt : j' < (runJobLoop oracle r (k + 1)).waits.length := by simpa using hj
            have harith : k + (j' + 1) + 1 = k + 1 + j' + 1 := by omega
            rw [List.getD_cons_succ, harith]
            exact i5 j' hlt
        · have harith : k + ((runJobLoop oracle r (k + 1)).attempts + 1) - 1
              = k + 1 + (runJobLoop oracle r (k + 1)).attempts - 1 := by omega
          rw [harith]
          exact i6
        · intro hf
          have harith : k + ((runJobLoop oracle r (k + 1)).attempts + 1) - 1
              = k + 1 + (runJobLoop oracle r (k + 1)).attempts - 1 := by omega
          rw [harith]
          rcases i7 hf with h1 | h1
          · exact Or.inl h1
          · exact Or.inr (by omega)
      · have hr' : isRateLimitMsg m = false := by simpa using hr
        simp [runJobLoop, h, hr', JobResult.isFailed, AttemptOutcome.isOk, AttemptOutcome.rateLimited]
    | inferErr m =>
      by_cases hr : isRateLimitMsg m = true
      · obtain ⟨i1, i2, i3, i4, i5, i6, i7⟩ := ih (k + 1)
        simp only [runJobLoop, h, hr, if_true]
        refine ⟨by omega, by omega, by simpa using i3, ?_, ?_, ?_, ?_⟩
        · intro j hj
          cases j with
          | zero => simpa [AttemptOutcome.rateLimited, h] using hr
          | succ j' =>
            have := i4 j' (by simpa using hj)
            simpa [Nat.add_assoc, Nat.add_comm 1 j'] using this
        · intro j hj
          cases j with
          | zero => simp
          | succ j' =>
            have hlt : j' < (runJobLoop oracle r (k + 1)).waits.length := by simpa using hj
            have harith : k + (j' + 1) + 1 = k + 1 + j' + 1 := by omega
            rw [List.getD_cons_succ, harith]
            exact i5 j' hlt
        · have harith : k + ((runJobLoop oracle r (k + 1)).attempts + 1) - 1
              = k + 1 + (runJobLoop oracle r (k + 1)).attempts - 1 := by omega
          rw [harith]
          exact i6
        · intro hf
          have harith : k + ((runJobLoop oracle r (k + 1)).attempts + 1) - 1
              = k + 1 + (runJobLoop oracle r (k + 1)).attempts - 1 := by omega
          rw [harith]
          rcases i7 hf with h1 | h1
          · exact Or.inl h1
          · exact Or.inr (by omega)
      · have hr' : isRateLimitMsg m = false := by simpa using hr
        simp [runJobLoop, h, hr', JobResult.isFailed, AttemptOutcome.isOk, AttemptOutcome.rateLimited]


/-- C1: the encode-and-infer step of a job is attempted at most 3 times; a
retry happens only when the failed attempt's error message contains "429" or
"RESOURCE_EXHAUSTED"; after the k-th rate-limited failure (k = 1, 2) the
runner waits exactly k * 5 seconds (`waits.getD (k-1) 0 = k * 5000` ms)
before the next attempt; the loop ends in a Failed result exactly when its
last attempt fails, and it stops retrying only because that failure was not
rate-limit classified or because it was the third attempt. -/
theorem retry_policy_bounded_linear_backoff (oracle : Nat → AttemptOutcome) :
    1 ≤ (runJob oracle).attempts ∧ (runJob oracle).attempts ≤ 3 ∧
    (runJob oracle).waits.length + 1 = (runJob oracle).attempts ∧
    (∀ j, j + 1 < (runJob oracle).attempts → (oracle j).rateLimited = true) ∧
    (∀ j, j < (runJob oracle).waits.length → (runJob oracle).waits.getD j 0 = (j + 1) * 5000) ∧
    (runJob oracle).result.isFailed = !(oracle ((runJob oracle).attempts - 1)).isOk ∧
    ((runJob oracle).result.isFailed = true →
      (oracle ((runJob oracle).attempts - 1)).rateLimited = false ∨ (runJob oracle).attempts = 3) := by
  obtain ⟨i1, i2, i3, i4, i5, i6, i7⟩ := runJobLoop_spec oracle 2 0
  refine ⟨i1, i2, i3, ?_, ?_, by simpa using i6, ?_⟩
  · intro j hj
    simpa using i4 j hj
  · intro j hj
    simpa using i5 j hj
  · intro hf
    simpa using i7 hf

/-- A Completed retry-loop result is always the parsed result of one of the
oracle's successful attempts. -/
theorem runJobLoop_completed (oracle : Nat → AttemptOutcome) (rem : Nat) : ∀ k r,
    (runJobLoop oracle rem k).result = .completed r → ∃ j, oracle j = .ok r := by
  induction rem with
  | zero =>
    intro k r hc
    cases h : oracle k with
    | ok r' =>
      refine ⟨k, ?_⟩
      simp [runJobLoop, h] at hc
      rw [h, hc]
    | encodeErr m => simp [runJobLoop, h] at hc
    | inferErr m => simp [runJobLoop, h] at hc
  | succ rr ih =>
    intro k r hc
    cases h : oracle k with
    | ok r' =>
      refine ⟨k, ?_⟩
      simp [runJobLoop, h] at hc
      rw [h, hc]
    | encodeErr m =>
      by_cases hr : isRateLimitMsg m = true
      · simp only [runJobLoop, h, hr, if_true] at hc
        exact ih (k + 1) r hc
      · simp [runJobLoop, h, hr] at hc
    | inferErr m =>
      by_cases hr : isRateLimitMsg m = true
      · simp only [runJobLoop, h, hr, if_true] at hc
        exact ih (k + 1) r hc
      · simp [runJobLoop, h, hr] at hc

/-- A failed attempt whose message contains "RESOURCE_EXHAUSTED" is
classified rate-limited. -/
theorem errMsg_rl_of_exhausted (o : AttemptOutcome) (m : String)
    (hm : o.errMsg = some m) (hs : strIncludes m "RESOURCE_EXHAUSTED" = true) :
    o.rateLimited = true := by
  cases o with
  | ok r => simp [AttemptOutcome.errMsg] at hm
  | encodeErr n =>
    simp [AttemptOutcome.errMsg] at hm
    subst hm
    simp [AttemptOutcome.rateLimited, isRateLimitMsg, hs]
  | inferErr n =>
    simp [AttemptOutcome.errMsg] at hm
    subst hm
    simp [AttemptOutcome.rateLimited, isRateLimitMsg, hs]

/-- One unrolling of the retry loop on a rate-limited failure. -/
theorem runJobLoop_rl_cons (oracle : Nat → AttemptOutcome) (r k : Nat)
    (hk : (oracle k).rateLimited = true) :
    (runJobLoop oracle (r + 1) k).result = (runJobLoop oracle r (k + 1)).result ∧
    (runJobLoop oracle (r + 1) k).attempts = (runJobLoop oracle r (k + 1)).attempts + 1 ∧
    (runJobLoop oracle (r + 1) k).waits = (k + 1) * 5000 :: (runJobLoop oracle r (k + 1)).waits := by
  cases h : oracle k with
  | ok r' => rw [h] at hk; simp [AttemptOutcome.rateLimited] at hk
  | encodeErr m =>
    rw [h] at hk
    simp only [AttemptOutcome.rateLimited] at hk
    simp [runJobLoop, h, hk]
  | inferErr m =>
    rw [h] at hk
    simp only [AttemptOutcome.rateLimited] at hk
    simp [runJobLoop, h, hk]

/-- The retry loop with no budget left fails with the classified label. -/
theorem runJobLoop_zero_err (oracle : Nat → AttemptOutcome) (k : Nat) (m : String)
    (hm : (oracle k).errMsg = some m) :
    (runJobLoop oracle 0 k).result = .failed (failLabel m) ∧
    (runJobLoop oracle 0 k).attempts = 1 ∧
    (runJobLoop oracle 0 k).waits = [] := by
  cases h : oracle k with
  | ok r => rw [h] at hm; simp [AttemptOutcome.errMsg] at hm
  | encodeErr n =>
    rw [h] at hm; simp [AttemptOutcome.errMsg] at hm; subst hm
    simp [runJobLoop, h]
  | inferErr n =>
    rw [h] at hm; simp [AttemptOutcome.errMsg] at hm; subst hm
    simp [runJobLoop, h]

/-- C3 counterexample: a job whose three attempts all fail with exactly
"RESOURCE_EXHAUSTED" (no "429" in the message) ends Failed after 3 attempts
but carries the generic label "分析失败", not the rate-limit label
"频率超限" the claim asserts: the displayed label tests only "429". -/
theorem resource_exhausted_label_cex :
    (runJob (fun _ => AttemptOutcome.inferErr "RESOURCE_EXHAUSTED")).result ≠
      JobResult.failed "频率超限" ∧
    runJob (fun _ => AttemptOutcome.inferErr "RESOURCE_EXHAUSTED") =
      { result := .failed "分析失败", attempts := 3, inferCalls := 3, waits := [5000, 10000] } :=
  ⟨by decide, by decide⟩

/-- C3 amended: for a job whose attempts all fail with messages containing
"RESOURCE_EXHAUSTED", the job ends Failed after exactly 3 attempts with
backoffs of 5 s and 10 s, and its label is `failLabel` of the final
message — "频率超限" only if that message also contains "429", otherwise
the generic "分析失败". -/
theorem resource_exhausted_three_attempts_label (oracle : Nat → AttemptOutcome)
    (h : ∀ k, k < 3 → ∃ m, (oracle k).errMsg = some m ∧ strIncludes m "RESOURCE_EXHAUSTED" = true) :
    (runJob oracle).attempts = 3 ∧ (runJob oracle).waits = [5000, 10000] ∧
    ∃ m, (oracle 2).errMsg = some m ∧ (runJob oracle).result = .failed (failLabel m) := by
  obtain ⟨m0, hm0, hs0⟩ := h 0 (by omega)
  obtain ⟨m1, hm1, hs1⟩ := h 1 (by omega)
  obtain ⟨m2, hm2, hs2⟩ := h 2 (by omega)
  have hr0 := errMsg_rl_of_exhausted _ _ hm0 hs0
  have hr1 := errMsg_rl_of_exhausted _ _ hm1 hs1
  obtain ⟨s0r, s0a, s0w⟩ := runJobLoop_rl_cons oracle 1 0 hr0
  obtain ⟨s1r, s1a, s1w⟩ := runJobLoop_rl_cons oracle 0 1 hr1
  obtain ⟨z2r, z2a, z2w⟩ := runJobLoop_zero_err oracle 2 m2 hm2
  refine ⟨?_, ?_, m2, hm2, ?_⟩
  · show (runJobLoop oracle 2 0).attempts = 3
    rw [s0a, s1a, z2a]
  · show (runJobLoop oracle 2 0).waits = [5000, 10000]
    rw [s0w, s1w, z2w]
  · show (runJobLoop oracle 2 0).result = .failed (failLabel m2)
    rw [s0r, s1r, z2r]

/-- C3 witness at a concrete rate-limited oracle. -/
theorem resource_exhausted_three_attempts_label_witness :
    (∀ k, k < 3 → ∃ m, ((fun _ => AttemptOutcome.inferErr "http 429 RESOURCE_EXHAUSTED") k).errMsg
        = some m ∧ strIncludes m "RESOURCE_EXHAUSTED" = true) ∧
    (runJob (fun _ => AttemptOutcome.inferErr "http 429 RESOURCE_EXHAUSTED")).attempts = 3 ∧
    (runJob (fun _ => AttemptOutcome.inferErr "http 429 RESOURCE_EXHAUSTED")).waits = [5000, 10000] ∧
    ∃ m, ((fun _ => AttemptOutcome.inferErr "http 429 RESOURCE_EXHAUSTED") 2).errMsg = some m ∧
      (runJob (fun _ => AttemptOutcome.inferErr "http 429 RESOURCE_EXHAUSTED")).result
        = .failed (failLabel m) := by
  have hh : ∀ k, k < 3 → ∃ m, ((fun _ => AttemptOutcome.inferErr "http 429 RESOURCE_EXHAUSTED") k).errMsg
      = some m ∧ strIncludes m "RESOURCE_EXHAUSTED" = true :=
    fun _ _ => ⟨"http 429 RESOURCE_EXHAUSTED", rfl, by decide⟩
  exact ⟨hh, resource_exhausted_three_attempts_label _ hh⟩

/-- C8 counterexample: an encoder failure whose message contains "429" is
retried twice like any rate-limited failure (3 attempts, never reaching the
inference call) and is labelled "频率超限", contradicting the claim that
every encoder error fails immediately with the generic classification. -/
theorem encoder_error_retry_cex :
    (runJob (fun _ => AttemptOutcome.encodeErr "429")).attempts ≠ 1 ∧
    (runJob (fun _ => AttemptOutcome.encodeErr "429")).result ≠ JobResult.failed "分析失败" ∧
    runJob (fun _ => AttemptOutcome.encodeErr "429") =
      { result := .failed "频率超限", attempts := 3, inferCalls := 0, waits := [5000, 10000] } :=
  ⟨by decide, by decide, by decide⟩

/-- C8 amended: an encoder failure on the first attempt whose message is
not rate-limit classified marks the job Failed immediately with the generic
label "分析失败": exactly 1 attempt, no inference call, no backoff wait. -/
theorem encoder_error_no_retry (oracle : Nat → AttemptOutcome) (m : String)
    (h0 : oracle 0 = .encodeErr m) (hnr : isRateLimitMsg m = false) :
    runJob oracle = { result := .failed "分析失败", attempts := 1, inferCalls := 0, waits := [] } := by
  have h429 : strIncludes m "429" = false := by
    have := hnr
    simp [isRateLimitMsg] at this
    exact this.1
  simp [runJob, maxRetries, runJobLoop, h0, hnr, failLabel, h429]

/-- C8 witness at a concrete encoder error. -/
theorem encoder_error_no_retry_witness :
    (fun _ => AttemptOutcome.encodeErr "file could not be read") 0
        = AttemptOutcome.encodeErr "file could not be read" ∧
    isRateLimitMsg "file could not be read" = false ∧
    runJob (fun _ => AttemptOutcome.encodeErr "file could not be read") =
      { result := .failed "分析失败", attempts := 1, inferCalls := 0, waits := [] } :=
  ⟨rfl, by decide, encoder_error_no_retry _ _ rfl (by decide)⟩

/-- Processing a job never changes its identifier. -/
theorem jobFinal_id (o : Nat → AttemptOutcome) (f : AudioFile) : (jobFinal o f).id = f.id := by
  cases hr : (runJob o).result with
  | completed r => simp [jobFinal, hr, toCompleted, toProcessing]
  | failed e => simp [jobFinal, hr, toFailed, toProcessing]

/-- Processing a job always leaves it in a terminal status. -/
theorem jobFinal_terminal (o : Nat → AttemptOutcome) (f : AudioFile) :
    (jobFinal o f).status = .COMPLETED ∨ (jobFinal o f).status = .FAILED := by
  cases hr : (runJob o).result with
  | completed r => left; simp [jobFinal, hr, toCompleted, toProcessing]
  | failed e => right; simp [jobFinal, hr, toFailed, toProcessing]

/-- The state after one job of the run loop is an id-keyed pointwise map. -/
theorem processJob_fst (o : Nat → AttemptOutcome) (theId : String) (fs : List AudioFile) :
    (processJob o theId fs).1 = fs.map fun f => if f.id = theId then jobFinal o f else f := by
  cases hr : (runJob o).result with
  | completed r =>
    simp only [processJob, hr, setCompleted, setProcessing, List.map_map]
    refine List.map_congr_left fun f _ => ?_
    by_cases h : f.id = theId
    · simp [Function.comp, h, toProcessing, jobFinal, hr]
    · simp [Function.comp, h]
  | failed e =>
    simp only [processJob, hr, setFailed, setProcessing, List.map_map]
    refine List.map_congr_left fun f _ => ?_
    by_cases h : f.id = theId
    · simp [Function.comp, h, toProcessing, jobFinal, hr]
    · simp [Function.comp, h]

theorem processJob_snd (o : Nat → AttemptOutcome) (theId : String) (fs : List AudioFile) :
    (processJob o theId fs).2 = runJob o := by
  cases hr : (runJob o).result with
  | completed r => simp [processJob, hr]
  | failed e => simp [processJob, hr]

theorem runPending_cons_fst (oracle : String → Nat → AttemptOutcome) (fs : List AudioFile)
    (theId : String) (rest : List String) :
    (runPending oracle fs (theId :: rest)).1 =
      (runPending oracle (processJob (oracle theId) theId fs).1 rest).1 := by
  cases rest with
  | nil => simp [runPending]
  | cons b l => simp [runPending]

theorem batchTransform_cons (oracle : String → Nat → AttemptOutcome) (theId : String)
    (rest : List String) (f : AudioFile) :
    batchTransform oracle (theId :: rest) f =
      batchTransform oracle rest (if f.id = theId then jobFinal (oracle theId) f else f) := rfl

/-- The whole run rewrites the queue pointwise: each entry evolves by
`batchTransform` over the processed id list. -/
theorem runPending_fst (oracle : String → Nat → AttemptOutcome) (ids : List String) :
    ∀ fs : List AudioFile, (runPending oracle fs ids).1 = fs.map (batchTransform oracle ids) := by
  induction ids with
  | nil =>
    intro fs
    show fs = fs.map (batchTransform oracle [])
    exact (List.map_id' fs).symm
  | cons theId rest ih =>
    intro fs
    rw [runPending_cons_fst, ih, processJob_fst, List.map_map]
    exact List.map_congr_left fun f _ => rfl

theorem runPending_cons_cons_snd (oracle : String → Nat → AttemptOutcome) (fs : List AudioFile)
    (theId b : String) (l : List String) :
    (runPending oracle fs (theId :: b :: l)).2 =
      RunEvent.jobRun theId (processJob (oracle theId) theId fs).2 :: RunEvent.interDelay 1500 ::
        (runPending oracle (processJob (oracle theId) theId fs).1 (b :: l)).2 := rfl

/-- The run's trace is the per-job runs in working-set order separated by
single 1500 ms inter-job delays. -/
theorem runPending_snd (oracle : String → Nat → AttemptOutcome) (ids : List String) :
    ∀ fs : List AudioFile, (runPending oracle fs ids).2 =
      List.intersperse (RunEvent.interDelay 1500)
        (ids.map fun theId => RunEvent.jobRun theId (runJob (oracle theId))) := by
  induction ids with
  | nil => intro fs; simp [runPending]
  | cons theId rest ih =>
    intro fs
    cases rest with
    | nil => simp [runPending, processJob_snd]
    | cons b l =>
      rw [runPending_cons_cons_snd, ih (processJob (oracle theId) theId fs).1, processJob_snd]
      simp [List.intersperse]


theorem batchTransform_id (oracle : String → Nat → AttemptOutcome) (ids : List String) :
    ∀ f : AudioFile, (batchTransform oracle ids f).id = f.id := by
  induction ids with
  | nil => intro f; rfl
  | cons theId rest ih =>
    intro f
    rw [batchTransform_cons]
    by_cases h : f.id = theId
    · rw [if_pos h, ih, jobFinal_id, h]
    · rw [if_neg h, ih]

theorem batchTransform_not_mem (oracle : String → Nat → AttemptOutcome) (ids : List String) :
    ∀ f : AudioFile, f.id ∉ ids → batchTransform oracle ids f = f := by
  induction ids with
  | nil => intro f _; rfl
  | cons theId rest ih =>
    intro f hf
    rw [batchTransform_cons, if_neg (by simp at hf; exact hf.1), ih _ (by simp at hf; exact hf.2)]

theorem batchTransform_mem_terminal (oracle : String → Nat → AttemptOutcome) (ids : List String) :
    ∀ f : AudioFile, f.id ∈ ids →
      (batchTransform oracle ids f).status = .COMPLETED ∨
      (batchTransform oracle ids f).status = .FAILED := by
  induction ids with
  | nil => intro f hf; simp at hf
  | cons theId rest ih =>
    intro f hf
    rw [batchTransform_cons]
    by_cases hm : f.id ∈ rest
    · by_cases h : f.id = theId
      · rw [if_pos h]
        exact ih _ (by rw [jobFinal_id]; exact hm)
      · rw [if_neg h]
        exact ih _ hm
    · have h : f.id = theId := by
        rcases List.mem_cons.mp hf with h | h
        · exact h
        · exact absurd h hm
      rw [if_pos h]
      rw [batchTransform_not_mem oracle rest _ (by rw [jobFinal_id, h]; rw [h] at hm; exact hm)]
      exact jobFinal_terminal _ _

theorem mem_workingSetIds (fs : List AudioFile) (theId : String) :
    theId ∈ workingSetIds fs ↔ ∃ g ∈ fs, isPendingStatus g = true ∧ g.id = theId := by
  simp [workingSetIds, workingSet, List.mem_map, List.mem_filter]
  constructor
  · rintro ⟨g, ⟨hg, hp⟩, hid⟩
    exact ⟨g, hg, hp, hid⟩
  · rintro ⟨g, hg, hp, hid⟩
    exact ⟨g, ⟨hg, hp⟩, hid⟩

theorem workingSetIds_nodup (fs : List AudioFile)
    (h : (fs.map AudioFile.id).Nodup) : (workingSetIds fs).Nodup := by
  have hsub : (workingSetIds fs).Sublist (fs.map AudioFile.id) :=
    (List.filter_sublist fs).map AudioFile.id
  exact h.sublist hsub

/-- C10: invoking `processBatch` while a run is already active returns the
state unchanged — no selection, no status mutation — and produces an empty
trace, so no attempt or delay of a second run is ever observed. -/
theorem reentrancy_guard_noop (oracle : String → Nat → AttemptOutcome) (st : AppState)
    (h : st.isProcessing = true) :
    processBatch oracle st = { state := st, trace := [] } := by
  simp [processBatch, h]

/-- C10 witness at a concrete busy state. -/
theorem reentrancy_guard_noop_witness :
    (AppState.mk [{ id := "a", name := "a.wav", size := "1 KB", status := .IDLE }] true).isProcessing
        = true ∧
    processBatch (fun _ _ => AttemptOutcome.inferErr "boom")
        (AppState.mk [{ id := "a", name := "a.wav", size := "1 KB", status := .IDLE }] true) =
      { state := AppState.mk [{ id := "a", name := "a.wav", size := "1 KB", status := .IDLE }] true,
        trace := [] } :=
  ⟨rfl, reentrancy_guard_noop _ _ rfl⟩

/-- C9: the trace of a run is exactly the selected jobs' retry loops, in
working-set order, with a single 1500 ms delay interspersed between
consecutive jobs — so the delay follows every job but the last, regardless
of whether that job completed or failed. -/
theorem inter_job_delay_trace (oracle : String → Nat → AttemptOutcome) (st : AppState)
    (h : st.isProcessing = false) :
    (processBatch oracle st).trace =
      List.intersperse (RunEvent.interDelay 1500)
        ((workingSetIds st.files).map fun theId => RunEvent.jobRun theId (runJob (oracle theId))) := by
  simp only [processBatch, h, Bool.false_eq_true, if_false]
  exact runPending_snd oracle (workingSetIds st.files) st.files

/-- C9 witness on a three-job queue. -/
theorem inter_job_delay_trace_witness :
    (AppState.mk [{ id := "a", name := "a.wav", size := "1 KB", status := .IDLE },
        { id := "b", name := "b.wav", size := "1 KB", status := .COMPLETED,
          emotionType := some "快乐", emotionLevel := some 5, voiceIdentity := some "男声",
          reasoning := some "r" },
        { id := "c", name := "c.wav", size := "1 KB", status := .FAILED,
          error := some "分析失败" }] false).isProcessing = false ∧
    (processBatch (fun _ _ => AttemptOutcome.inferErr "boom")
        (AppState.mk [{ id := "a", name := "a.wav", size := "1 KB", status := .IDLE },
          { id := "b", name := "b.wav", size := "1 KB", status := .COMPLETED,
            emotionType := some "快乐", emotionLevel := some 5, voiceIdentity := some "男声",
            reasoning := some "r" },
          { id := "c", name := "c.wav", size := "1 KB", status := .FAILED,
            error := some "分析失败" }] false)).trace =
      List.intersperse (RunEvent.interDelay 1500)
        ((workingSetIds [{ id := "a", name := "a.wav", size := "1 KB", status := .IDLE },
          { id := "b", name := "b.wav", size := "1 KB", status := .COMPLETED,
            emotionType := some "快乐", emotionLevel := some 5, voiceIdentity := some "男声",
            reasoning := some "r" },
          { id := "c", name := "c.wav", size := "1 KB", status := .FAILED,
            error := some "分析失败" }]).map
          fun theId => RunEvent.jobRun theId (runJob ((fun _ _ => AttemptOutcome.inferErr "boom") theId))) :=
  ⟨rfl, inter_job_delay_trace _ _ rfl⟩

/-- C4: when a run returns, the run-active flag is cleared and every job
whose id was selected into the working set is in a terminal status.  The
run function is total: every per-job outcome, encoder or inference failure
included, is absorbed into a terminal status rather than escaping. -/
theorem run_postcondition_terminal (oracle : String → Nat → AttemptOutcome) (st : AppState)
    (h : st.isProcessing = false) :
    (processBatch oracle st).state.isProcessing = false ∧
    ∀ f ∈ (processBatch oracle st).state.files,
      f.id ∈ workingSetIds st.files → f.status = .COMPLETED ∨ f.status = .FAILED := by
  refine ⟨by simp [processBatch, h], ?_⟩
  intro f hf hid
  simp only [processBatch, h, Bool.false_eq_true, if_false] at hf
  rw [runPending_fst] at hf
  obtain ⟨f0, hf0, rfl⟩ := List.mem_map.mp hf
  exact batchTransform_mem_terminal oracle _ f0 (by rw [batchTransform_id] at hid; exact hid)

/-- C4 witness on a one-job queue whose attempts all fail. -/
theorem run_postcondition_terminal_witness :
    (AppState.mk [{ id := "a", name := "a.wav", size := "1 KB", status := .IDLE }] false).isProcessing
        = false ∧
    (processBatch (fun _ _ => AttemptOutcome.inferErr "boom")
        (AppState.mk [{ id := "a", name := "a.wav", size := "1 KB", status := .IDLE }] false)).state.isProcessing = false ∧
    ∀ f ∈ (processBatch (fun _ _ => AttemptOutcome.inferErr "boom")
        (AppState.mk [{ id := "a", name := "a.wav", size := "1 KB", status := .IDLE }] false)).state.files,
      f.id ∈ workingSetIds [{ id := "a", name := "a.wav", size := "1 KB", status := .IDLE }] →
        f.status = .COMPLETED ∨ f.status = .FAILED := by
  have h := run_postcondition_terminal (fun _ _ => AttemptOutcome.inferErr "boom")
    (AppState.mk [{ id := "a", name := "a.wav", size := "1 KB", status := .IDLE }] false) rfl
  exact ⟨rfl, h.1, h.2⟩

/-- With duplicate-free ids, a selected entry's net change across the run
is exactly one `jobFinal` rewrite. -/
theorem batchTransform_mem_nodup (oracle : String → Nat → AttemptOutcome) (ids : List String) :
    ∀ f : AudioFile, ids.Nodup → f.id ∈ ids →
      batchTransform oracle ids f = jobFinal (oracle f.id) f := by
  induction ids with
  | nil => intro f _ hf; simp at hf
  | cons theId rest ih =>
    intro f hnd hf
    rw [batchTransform_cons]
    rcases List.nodup_cons.mp hnd with ⟨hni, hndr⟩
    by_cases h : f.id = theId
    · rw [if_pos h]
      rw [batchTransform_not_mem oracle rest _ (by rw [jobFinal_id, h]; exact hni)]
      rw [h]
    · rw [if_neg h]
      exact ih f hndr (by rcases List.mem_cons.mp hf with h' | h'; exact absurd h' h; exact h')

theorem forall₂_map_self {α β : Type} (P : α → β → Prop) (g : α → β) :
    ∀ l : List α, (∀ a ∈ l, P a (g a)) → List.Forall₂ P l (l.map g) := by
  intro l
  induction l with
  | nil => intro _; exact List.Forall₂.nil
  | cons a t ih =>
    intro h
    exact List.Forall₂.cons (h a (by simp)) (ih fun x hx => h x (by simp [hx]))

theorem isPendingStatus_ne_completed (f : AudioFile) (h : isPendingStatus f = true) :
    f.status ≠ .COMPLETED := by
  cases hs : f.status <;> simp [isPendingStatus, hs] at h ⊢

theorem mem_files_of_mem_workingSetIds (fs : List AudioFile) (theId : String)
    (h : theId ∈ workingSetIds fs) :
    ∃ g ∈ fs, isPendingStatus g = true ∧ g.id = theId :=
  (mem_workingSetIds fs theId).mp h

/-- Ids appended after the working set was selected are never selected. -/
theorem late_ids_not_selected (fs late : List AudioFile)
    (hnd : ((fs ++ late).map AudioFile.id).Nodup) :
    ∀ g ∈ late, g.id ∉ workingSetIds fs := by
  intro g hg hin
  rw [List.map_append] at hnd
  have hdisj : List.Disjoint (fs.map AudioFile.id) (late.map AudioFile.id) :=
    List.disjoint_of_nodup_append hnd
  have hmem1 : g.id ∈ fs.map AudioFile.id := by
    have hsub : (workingSetIds fs).Sublist (fs.map AudioFile.id) :=
      (List.filter_sublist fs).map AudioFile.id
    exact hsub.mem hin
  exact hdisj hmem1 (List.mem_map.mpr ⟨g, hg, rfl⟩)

/-- C2: a run selects exactly the jobs Idle or Failed at run-start.  Entry
by entry (`Forall₂` relates the run-start queue, late appends included, to
the final queue): a Completed job is unchanged, a job outside the working
set is unchanged, and a selected job's final value is precisely its
processed value.  The trace processes the working-set ids in queue order,
and a job appended after run-start is never in that working set. -/
theorem run_mutates_exactly_working_set (oracle : String → Nat → AttemptOutcome) (st : AppState)
    (late : List AudioFile)
    (hnd : ((st.files ++ late).map AudioFile.id).Nodup)
    (hp : st.isProcessing = false) :
    List.Forall₂ (fun f g =>
        (f.status = .COMPLETED → g = f) ∧
        (f.id ∉ workingSetIds st.files → g = f) ∧
        (f.id ∈ workingSetIds st.files → g = jobFinal (oracle f.id) f))
      (st.files ++ late) (processBatchLateAppend oracle st late).state.files ∧
    (processBatchLateAppend oracle st late).trace =
      List.intersperse (RunEvent.interDelay 1500)
        ((workingSetIds st.files).map fun theId =>
          RunEvent.jobRun theId (runJob (oracle theId))) ∧
    (∀ g ∈ late, g.id ∉ workingSetIds st.files) := by
  have hndfs : (st.files.map AudioFile.id).Nodup := by
    rw [List.map_append] at hnd
    exact hnd.of_append_left
  have hndids : (workingSetIds st.files).Nodup := workingSetIds_nodup st.files hndfs
  constructor
  · simp only [processBatchLateAppend, hp, Bool.false_eq_true, if_false]
    rw [runPending_fst]
    refine forall₂_map_self _ _ _ fun f hf => ?_
    refine ⟨?_, ?_, ?_⟩
    · intro hc
      have hnotin : f.id ∉ workingSetIds st.files := by
        intro hin
        obtain ⟨g, hg, hpend, hgid⟩ := mem_files_of_mem_workingSetIds st.files f.id hin
        have : g = f := List.inj_on_of_nodup_map hnd
          (List.mem_append.mpr (Or.inl hg)) hf hgid
        exact isPendingStatus_ne_completed g hpend (by rw [this]; exact hc)
      exact batchTransform_not_mem oracle _ f hnotin
    · intro hnotin
      exact batchTransform_not_mem oracle _ f hnotin
    · intro hin
      exact batchTransform_mem_nodup oracle _ f hndids hin
  refine ⟨?_, late_ids_not_selected st.files late hnd⟩
  · simp only [processBatchLateAppend, hp, Bool.false_eq_true, if_false]
    exact runPending_snd oracle (workingSetIds st.files) (st.files ++ late)


theorem jobInv_mkIdleJob (nf : NewFileMeta) : jobInv (mkIdleJob nf) = true := rfl

theorem toProcessing_inv (f : AudioFile) (hinv : jobInv f = true) (hc : f.status ≠ .COMPLETED) :
    jobInv (toProcessing f) = true := by
  have h1 : (f.status == EmotionStatus.COMPLETED) = false := beq_eq_false_iff_ne.mpr hc
  simp only [jobInv, Bool.and_eq_true, beq_iff_eq, h1] at hinv
  obtain ⟨⟨⟨⟨h2, h3⟩, h4⟩, h5⟩, h6⟩ := hinv
  have e1 : (EmotionStatus.PROCESSING == EmotionStatus.COMPLETED) = false := by decide
  have e2 : (EmotionStatus.PROCESSING == EmotionStatus.FAILED) = false := by decide
  simp only [jobInv, toProcessing, Bool.and_eq_true, beq_iff_eq, e1, e2]
  simp [h2, h3, h4, h5]

theorem toCompleted_inv (r : AnalysisResult) (f : AudioFile) (hinv : jobInv f = true)
    (hp : f.status = .PROCESSING) : jobInv (toCompleted r f) = true := by
  have e2 : (EmotionStatus.PROCESSING == EmotionStatus.FAILED) = false := by decide
  simp only [jobInv, Bool.and_eq_true, beq_iff_eq, hp, e2] at hinv
  obtain ⟨⟨⟨⟨h2, h3⟩, h4⟩, h5⟩, h6⟩ := hinv
  have e3 : (EmotionStatus.COMPLETED == EmotionStatus.COMPLETED) = true := by decide
  have e4 : (EmotionStatus.COMPLETED == EmotionStatus.FAILED) = false := by decide
  simp only [jobInv, toCompleted, Bool.and_eq_true, beq_iff_eq, e3, e4]
  simp [h6]

theorem toFailed_inv (e : String) (f : AudioFile) (hinv : jobInv f = true)
    (hp : f.status = .PROCESSING) : jobInv (toFailed e f) = true := by
  have e1 : (EmotionStatus.PROCESSING == EmotionStatus.COMPLETED) = false := by decide
  simp only [jobInv, Bool.and_eq_true, beq_iff_eq, hp, e1] at hinv
  obtain ⟨⟨⟨⟨h2, h3⟩, h4⟩, h5⟩, h6⟩ := hinv
  have e3 : (EmotionStatus.FAILED == EmotionStatus.COMPLETED) = false := by decide
  have e4 : (EmotionStatus.FAILED == EmotionStatus.FAILED) = true := by decide
  simp only [jobInv, toFailed, Bool.and_eq_true, beq_iff_eq, e3, e4]
  simp [h2, h3, h4, h5]

theorem jobFinal_inv (o : Nat → AttemptOutcome) (f : AudioFile) (hinv : jobInv f = true)
    (hc : f.status ≠ .COMPLETED) : jobInv (jobFinal o f) = true := by
  have hpinv := toProcessing_inv f hinv hc
  have hpstat : (toProcessing f).status = .PROCESSING := rfl
  cases hr : (runJob o).result with
  | completed r =>
    simp only [jobFinal, hr]
    exact toCompleted_inv r _ hpinv hpstat
  | failed e =>
    simp only [jobFinal, hr]
    exact toFailed_inv e _ hpinv hpstat

theorem batchTransform_inv (oracle : String → Nat → AttemptOutcome) (ids : List String) :
    ∀ f : AudioFile, ids.Nodup → jobInv f = true →
      (f.id ∈ ids → f.status ≠ .COMPLETED) →
      jobInv (batchTransform oracle ids f) = true := by
  induction ids with
  | nil => intro f _ hinv _; exact hinv
  | cons theId rest ih =>
    intro f hnd hinv hc
    rcases List.nodup_cons.mp hnd with ⟨hni, hndr⟩
    rw [batchTransform_cons]
    by_cases h : f.id = theId
    · rw [if_pos h]
      rw [batchTransform_not_mem oracle rest _ (by rw [jobFinal_id, h]; exact hni)]
      exact jobFinal_inv _ f hinv (hc (by rw [h]; exact List.mem_cons_self theId rest))
    · rw [if_neg h]
      exact ih f hndr hinv fun hm => hc (List.mem_cons_of_mem theId hm)

/-- C5: every queue operation preserves the per-job invariant `jobInv` (the
four result fields are present iff the job is Completed; the error field is
present iff it is Failed): enqueueing files, removing a job, each of the
three status transitions a run performs (to Processing from a non-Completed
job, and to Completed or Failed from Processing), and a whole run over a
queue with duplicate-free ids. -/
theorem queue_ops_preserve_field_invariant :
    (∀ nf : NewFileMeta, jobInv (mkIdleJob nf) = true) ∧
    (∀ (sel : List NewFileMeta) (fs : List AudioFile), (∀ f ∈ fs, jobInv f = true) →
      ∀ f ∈ handleFileChange sel fs, jobInv f = true) ∧
    (∀ (theId : String) (fs : List AudioFile), (∀ f ∈ fs, jobInv f = true) →
      ∀ f ∈ removeFile theId fs, jobInv f = true) ∧
    (∀ f : AudioFile, jobInv f = true → f.status ≠ .COMPLETED →
      jobInv (toProcessing f) = true) ∧
    (∀ (r : AnalysisResult) (f : AudioFile), jobInv f = true → f.status = .PROCESSING →
      jobInv (toCompleted r f) = true) ∧
    (∀ (e : String) (f : AudioFile), jobInv f = true → f.status = .PROCESSING →
      jobInv (toFailed e f) = true) ∧
    (∀ (oracle : String → Nat → AttemptOutcome) (st : AppState),
      (st.files.map AudioFile.id).Nodup → (∀ f ∈ st.files, jobInv f = true) →
      ∀ f ∈ (processBatch oracle st).state.files, jobInv f = true) := by
  refine ⟨jobInv_mkIdleJob, ?_, ?_, toProcessing_inv, toCompleted_inv, toFailed_inv, ?_⟩
  · intro sel fs hfs f hf
    rcases List.mem_append.mp hf with h | h
    · exact hfs f h
    · obtain ⟨nf, _, rfl⟩ := List.mem_map.mp h
      exact jobInv_mkIdleJob nf
  · intro theId fs hfs f hf
    exact hfs f (List.mem_of_mem_filter hf)
  · intro oracle st hnd hfs f hf
    by_cases hp : st.isProcessing = true
    · simp only [processBatch, hp, if_true] at hf
      exact hfs f hf
    · simp only [processBatch, hp, if_false] at hf
      rw [runPending_fst] at hf
      obtain ⟨f0, hf0, rfl⟩ := List.mem_map.mp hf
      refine batchTransform_inv oracle _ f0 (workingSetIds_nodup st.files hnd) (hfs f0 hf0) ?_
      intro hin
      obtain ⟨g, hg, hpend, hgid⟩ := mem_files_of_mem_workingSetIds st.files f0.id hin
      have : g = f0 := List.inj_on_of_nodup_map hnd hg hf0 hgid
      exact this ▸ isPendingStatus_ne_completed g hpend

theorem jobFinal_completedOk (o : Nat → AttemptOutcome)
    (hro : ∀ k r, o k = .ok r → 1 ≤ r.emotionLevel ∧ r.emotionLevel ≤ 10)
    (f : AudioFile) : completedOk (jobFinal o f) := by
  cases hr : (runJob o).result with
  | completed r =>
    obtain ⟨j, hj⟩ := runJobLoop_completed o maxRetries 0 r hr
    simp only [completedOk, jobFinal, hr]
    intro _
    refine ⟨by simp [toCompleted], by simp [toCompleted], by simp [toCompleted],
      by simp [toCompleted], ?_⟩
    intro lv hlv
    simp only [toCompleted] at hlv
    simp only [Option.some.injEq] at hlv
    subst hlv
    exact hro j r hj
  | failed e =>
    simp only [completedOk, jobFinal, hr]
    intro hc
    simp [toFailed] at hc

theorem batchTransform_completedOk (oracle : String → Nat → AttemptOutcome)
    (hro : ∀ theId k r, oracle theId k = .ok r → 1 ≤ r.emotionLevel ∧ r.emotionLevel ≤ 10)
    (ids : List String) : ∀ f : AudioFile, completedOk f →
      completedOk (batchTransform oracle ids f) := by
  induction ids with
  | nil => intro f hf; exact hf
  | cons theId rest ih =>
    intro f hf
    rw [batchTransform_cons]
    by_cases h : f.id = theId
    · rw [if_pos h]
      exact ih _ (jobFinal_completedOk (oracle theId) (hro theId) f)
    · rw [if_neg h]
      exact ih _ hf

/-- C7: provided the queue initially satisfies it and every successful
inference result carries an intensity in 1..10 (the InferenceClient
contract — the parser itself checks no range), after a run every Completed
job has all four result fields present and its stored intensity in 1..10. -/
theorem completed_jobs_fields_and_range (oracle : String → Nat → AttemptOutcome) (st : AppState)
    (hinit : ∀ f ∈ st.files, completedOk f)
    (hro : ∀ (theId : String) (k : Nat) (r : AnalysisResult),
      oracle theId k = .ok r → 1 ≤ r.emotionLevel ∧ r.emotionLevel ≤ 10) :
    ∀ f ∈ (processBatch oracle st).state.files, completedOk f := by
  intro f hf
  by_cases hp : st.isProcessing = true
  · simp only [processBatch, hp, if_true] at hf
    exact hinit f hf
  · simp only [processBatch, hp, if_false] at hf
    rw [runPending_fst] at hf
    obtain ⟨f0, hf0, rfl⟩ := List.mem_map.mp hf
    exact batchTransform_completedOk oracle hro _ f0 (hinit f0 hf0)

theorem charsIncl_single (c : Char) : ∀ l : List Char, charsIncl [c] l = true ↔ c ∈ l := by
  intro l
  induction l with
  | nil => simp [charsIncl, headMatches]
  | cons b bs ih =>
    simp [charsIncl, headMatches, ih, List.mem_cons]

theorem strIncludes_quote_false (s : String) (h : strIncludes s "\"" = false) :
    '\"' ∉ s.toList := by
  intro hc
  have h2 : charsIncl ['\"'] s.toList = true := (charsIncl_single '\"' s.toList).mpr hc
  rw [strIncludes] at h
  have he : ("\"" : String).toList = ['\"'] := rfl
  rw [he] at h
  rw [h2] at h
  exact Bool.true_eq_false.mp h

theorem foldr_no_quote : ∀ l : List Char, '\"' ∉ l →
    l.foldr (fun c acc => if c = '\"' then '\"' :: '\"' :: acc else c :: acc) [] = l := by
  intro l
  induction l with
  | nil => intro _; rfl
  | cons b bs ih =>
    intro h
    have hb : b ≠ '\"' := fun he => h (he ▸ List.mem_cons_self b bs)
    simp only [List.foldr_cons, if_neg hb]
    rw [ih fun hm => h (List.mem_cons_of_mem b hm)]

theorem doubleQuotes_no_quote (s : String) (h : strIncludes s "\"" = false) :
    doubleQuotes s = s := by
  rw [doubleQuotes, foldr_no_quote s.toList (strIncludes_quote_false s h)]
  rfl

theorem levelStr_no_quote (ol : Option Int)
    (h : ol = none ∨ ∃ lv, ol = some lv ∧ 1 ≤ lv ∧ lv ≤ 10) :
    strIncludes (levelStr ol) "\"" = false := by
  rcases h with rfl | ⟨lv, rfl, h1, h2⟩
  · decide
  · interval_cases lv <;> decide

theorem exportRow_eq_spec (f : AudioFile)
    (hn : strIncludes f.name "\"" = false)
    (he : strIncludes (f.emotionType.getD "") "\"" = false)
    (hv : strIncludes (f.voiceIdentity.getD "") "\"" = false)
    (hl : f.emotionLevel = none ∨ ∃ lv, f.emotionLevel = some lv ∧ 1 ≤ lv ∧ lv ≤ 10) :
    exportRow f = exportRowSpec f := by
  simp only [exportRow, exportRowSpec, csvEscapeSpec]
  rw [doubleQuotes_no_quote _ hn, doubleQuotes_no_quote _ he, doubleQuotes_no_quote _ hv,
    doubleQuotes_no_quote _ (levelStr_no_quote f.emotionLevel hl)]

/-- C6 counterexample: a double-quote character inside the file name is NOT
doubled by the export — only the reasoning field is escaped — so the claim's
row differs from the produced row on an Idle job named `a"b`. -/
theorem export_name_quote_cex :
    exportRow { id := "x", name := "a\"b", size := "1 KB", status := .IDLE } ≠
      exportRowSpec { id := "x", name := "a\"b", size := "1 KB", status := .IDLE } ∧
    exportRow { id := "x", name := "a\"b", size := "1 KB", status := .IDLE } =
      "\"a\"b\",\"\",\"\",\"\",\"\"" ∧
    exportRowSpec { id := "x", name := "a\"b", size := "1 KB", status := .IDLE } =
      "\"a\"\"b\",\"\",\"\",\"\",\"\"" :=
  ⟨by decide, by decide, by decide⟩

/-- C6 amended: the export emits one row per job regardless of status
(row count equals queue length), and whenever the name, emotion label and
voice-identity fields contain no double-quote character (and the intensity
is absent or in 1..10), the produced text coincides with the fully escaped
spec rendering — embedded double quotes are doubled only in the reasoning
field, with empty strings for unset fields. -/
theorem export_full_queue_rows (fs : List AudioFile)
    (h : ∀ f ∈ fs, strIncludes f.name "\"" = false ∧
      strIncludes (f.emotionType.getD "") "\"" = false ∧
      strIncludes (f.voiceIdentity.getD "") "\"" = false ∧
      (f.emotionLevel = none ∨ ∃ lv, f.emotionLevel = some lv ∧ 1 ≤ lv ∧ lv ≤ 10)) :
    exportResults fs = "\uFEFF" ++ csvHeader ++ String.intercalate "\n" (fs.map exportRowSpec) ∧
    (fs.map exportRowSpec).length = fs.length := by
  constructor
  · rw [exportResults]
    have : fs.map exportRow = fs.map exportRowSpec :=
      List.map_congr_left fun f hf =>
        exportRow_eq_spec f (h f hf).1 (h f hf).2.1 (h f hf).2.2.1 (h f hf).2.2.2
    rw [this]
  · exact List.length_map fs exportRowSpec

/-- C2 witness: a queue of one Idle and one Completed job, with one job appended late. -/
theorem run_mutates_exactly_working_set_witness :
    ((([jobIdleA, jobDoneB] ++ [jobIdleC]).map AudioFile.id).Nodup) ∧
    (AppState.mk [jobIdleA, jobDoneB] false).isProcessing = false ∧
    List.Forall₂ (fun f g =>
        (f.status = .COMPLETED → g = f) ∧
        (f.id ∉ workingSetIds [jobIdleA, jobDoneB] → g = f) ∧
        (f.id ∈ workingSetIds [jobIdleA, jobDoneB] → g = jobFinal (oracleBoom f.id) f))
      ([jobIdleA, jobDoneB] ++ [jobIdleC])
      (processBatchLateAppend oracleBoom (AppState.mk [jobIdleA, jobDoneB] false)
        [jobIdleC]).state.files ∧
    (processBatchLateAppend oracleBoom (AppState.mk [jobIdleA, jobDoneB] false)
        [jobIdleC]).trace =
      List.intersperse (RunEvent.interDelay 1500)
        ((workingSetIds [jobIdleA, jobDoneB]).map fun theId =>
          RunEvent.jobRun theId (runJob (oracleBoom theId))) ∧
    (∀ g ∈ [jobIdleC], g.id ∉ workingSetIds [jobIdleA, jobDoneB]) := by
  have h := run_mutates_exactly_working_set oracleBoom
    (AppState.mk [jobIdleA, jobDoneB] false) [jobIdleC] (by decide) rfl
  exact ⟨by decide, rfl, h.1, h.2.1, h.2.2⟩

/-- C7 witness with an oracle honouring the intensity contract. -/
theorem completed_jobs_fields_and_range_witness :
    (∀ f ∈ [jobIdleA], completedOk f) ∧
    (∀ (theId : String) (k : Nat) (r : AnalysisResult),
      oracleOk7 theId k = .ok r → 1 ≤ r.emotionLevel ∧ r.emotionLevel ≤ 10) ∧
    ∀ f ∈ (processBatch oracleOk7 (AppState.mk [jobIdleA] false)).state.files, completedOk f := by
  have h1 : ∀ f ∈ [jobIdleA], completedOk f := by
    intro f hf
    simp only [List.mem_singleton] at hf
    subst hf
    intro hc
    exact absurd hc (by decide)
  have h2 : ∀ (theId : String) (k : Nat) (r : AnalysisResult),
      oracleOk7 theId k = .ok r → 1 ≤ r.emotionLevel ∧ r.emotionLevel ≤ 10 := by
    intro theId k r hr
    cases hr
    exact ⟨by decide, by decide⟩
  exact ⟨h1, h2, completed_jobs_fields_and_range oracleOk7 _ h1 h2⟩

/-- C6 witness on a queue with an Idle and a Completed job. -/
theorem export_full_queue_rows_witness :
    (∀ f ∈ [jobIdleA, jobDoneB], strIncludes f.name "\"" = false ∧
      strIncludes (f.emotionType.getD "") "\"" = false ∧
      strIncludes (f.voiceIdentity.getD "") "\"" = false ∧
      (f.emotionLevel = none ∨ ∃ lv, f.emotionLevel = some lv ∧ 1 ≤ lv ∧ lv ≤ 10)) ∧
    exportResults [jobIdleA, jobDoneB] =
      "\uFEFF" ++ csvHeader ++ String.intercalate "\n" ([jobIdleA, jobDoneB].map exportRowSpec) ∧
    ([jobIdleA, jobDoneB].map exportRowSpec).length = [jobIdleA, jobDoneB].length := by
  have h : ∀ f ∈ [jobIdleA, jobDoneB], strIncludes f.name "\"" = false ∧
      strIncludes (f.emotionType.getD "") "\"" = false ∧
      strIncludes (f.voiceIdentity.getD "") "\"" = false ∧
      (f.emotionLevel = none ∨ ∃ lv, f.emotionLevel = some lv ∧ 1 ≤ lv ∧ lv ≤ 10) := by
    intro f hf
    rcases List.mem_cons.mp hf with rfl | hf2
    · exact ⟨by decide, by decide, by decide, Or.inl rfl⟩
    · rcases List.mem_cons.mp hf2 with rfl | hf3
      · exact ⟨by decide, by decide, by decide, Or.inr ⟨7, rfl, by decide, by decide⟩⟩
      · simp at hf3
  have h2 := export_full_queue_rows [jobIdleA, jobDoneB] h
  exact ⟨h, h2.1, h2.2⟩

end TXSonicLab
